import Mathlib

/-
Verification of the typed value serialization subsystem of
packages/near-sdk-js/src/utils.ts.

The embedding works at the level of the parsed wire tree: the host
primitives JSON.stringify, JSON.parse and the UTF-8 byte codec form a
bijection between well-formed canonical texts and parsed trees, so a
byte sequence holding well-formed canonical text is represented by the
tree it parses to (type PlainJson below), and runtime values by the
type JValue.  The host builtins BigInt, Date.prototype.toISOString and
the Date constructor are modelled executably on the paths the source
exercises; the doc comment of each model states its scope.
-/

/-- Character of a single decimal digit, as the host digit-to-character
conversion produces it (code point 48 plus the digit). -/
def digitChar (d : Nat) : Char := Char.ofNat (48 + d)

/-- Numeric value of a decimal digit character, none for any other
character. -/
def charDigit (c : Char) : Option Nat :=
  if 48 ≤ c.toNat && c.toNat ≤ 57 then some (c.toNat - 48) else none

/-- Value of a little-endian list of decimal digits. -/
def ofDecDigitsLE : List Nat → Nat
  | [] => 0
  | d :: ds => d + 10 * ofDecDigitsLE ds

/-- Little-endian decimal digits of n, computed with explicit fuel so
that the definition is structurally recursive and kernel-reducible.
With fuel at least n the digit list is complete. -/
def decDigitsAux : Nat → Nat → List Nat
  | 0, _ => []
  | fuel + 1, n => if n = 0 then [] else n % 10 :: decDigitsAux fuel (n / 10)

/-- Decimal digit characters of a natural number, most significant
first, as the host BigInt and Number toString conversions render it. -/
def natDecChars (n : Nat) : List Char :=
  if n = 0 then ['0'] else ((decDigitsAux n n).reverse).map digitChar

/-- Decimal string of an integer with an optional leading minus sign,
the form BigInt.prototype.toString produces. -/
def bigIntToDecString (i : Int) : String :=
  if i < 0 then String.mk ('-' :: natDecChars i.natAbs)
  else String.mk (natDecChars i.natAbs)

/-- Failures the modelled deserializer can raise.  Malformed canonical
text (the ParseError of the spec) sits below this abstraction, because
a PlainJson tree is well-formed text by construction; these constructors
cover the failures raised while reviving a well-formed tree.
badBigIntLiteral is the SyntaxError the host BigInt conversion throws on
a string that is not an integer literal; typeError is the TypeError it
throws on operands with no numeric coercion; invalidDate stands for the
invalid-Date outcome of the host Date constructor, which the model,
representing only valid instants, reports as an error. -/
inductive DErr where
  | badBigIntLiteral : DErr
  | typeError : DErr
  | invalidDate : DErr
deriving DecidableEq

/-- Value of a list of decimal digit characters read most significant
first onto an accumulator; none on the first non-digit character. -/
def parseDigitsAcc : Nat → List Char → Option Nat
  | a, [] => some a
  | a, c :: cs =>
    match charDigit c with
    | some d => parseDigitsAcc (a * 10 + d) cs
    | none => none

/-- Value of a nonempty list of decimal digit characters, most
significant first; none when the list is empty or holds a non-digit. -/
def parseDecDigits (l : List Char) : Option Nat :=
  match l with
  | [] => none
  | _ => parseDigitsAcc 0 l

/-- List-level core of the modelled string-to-BigInt conversion. -/
def parseBigIntChars (l : List Char) : Except DErr Int :=
  match l with
  | [] => .ok 0
  | c :: cs =>
    if c == '+' then
      match parseDecDigits cs with
      | some n => .ok (n : Int)
      | none => .error .badBigIntLiteral
    else if c == '-' then
      match parseDecDigits cs with
      | some n => .ok (-(n : Int))
      | none => .error .badBigIntLiteral
    else
      match parseDecDigits (c :: cs) with
      | some n => .ok (n : Int)
      | none => .error .badBigIntLiteral

/-- Host primitive modelled: the ToBigInt conversion of a string, as
BigInt applies it.  The modelled subset covers the empty string (zero),
an optional single leading plus or minus sign and decimal digits; the
whitespace trimming and the binary, octal and hexadecimal prefixes of
the full host conversion are outside the model, and no claim exercises
them. -/
def parseBigIntDec (s : String) : Except DErr Int :=
  parseBigIntChars s.data

theorem charDigit_digitChar : ∀ d, d < 10 → charDigit (digitChar d) = some d := by decide

theorem digitChar_ne_signs : ∀ d, d < 10 →
    (digitChar d == '+') = false ∧ (digitChar d == '-') = false := by decide

theorem parseDigitsAcc_map_digitChar :
    ∀ ds : List Nat, ∀ a, (∀ d ∈ ds, d < 10) →
      parseDigitsAcc a (ds.map digitChar) = some (List.foldl (fun a d => a * 10 + d) a ds) := by
  intro ds
  induction ds with
  | nil => intro a h; rfl
  | cons d ds ih =>
    intro a h
    have hd : d < 10 := h d (List.mem_cons_self d ds)
    simp only [List.map_cons, parseDigitsAcc, charDigit_digitChar d hd, List.foldl_cons]
    exact ih (a * 10 + d) (fun x hx => h x (List.mem_cons_of_mem d hx))

theorem decDigitsAux_lt_ten :
    ∀ fuel n d, d ∈ decDigitsAux fuel n → d < 10 := by
  intro fuel
  induction fuel with
  | zero => intro n d h; simp [decDigitsAux] at h
  | succ fuel ih =>
    intro n d h
    by_cases hn : n = 0
    · simp [decDigitsAux, hn] at h
    · simp [decDigitsAux, hn] at h
      rcases h with h | h
      · omega
      · exact ih _ _ h

theorem ofDecDigitsLE_decDigitsAux :
    ∀ fuel n, n ≤ fuel → ofDecDigitsLE (decDigitsAux fuel n) = n := by
  intro fuel
  induction fuel with
  | zero => intro n h; interval_cases n; rfl
  | succ fuel ih =>
    intro n h
    by_cases hn : n = 0
    · simp [decDigitsAux, hn, ofDecDigitsLE]
    · have hrec : n / 10 ≤ fuel := by omega
      simp [decDigitsAux, hn, ofDecDigitsLE, ih _ hrec]
      omega

theorem decDigitsAux_ne_nil (n : Nat) (h : n ≠ 0) : decDigitsAux n n ≠ [] := by
  cases n with
  | zero => exact absurd rfl h
  | succ m => simp [decDigitsAux, h]

theorem foldl_reverse_ofDecDigitsLE :
    ∀ (ds : List Nat) (a : Nat),
      List.foldl (fun a d => a * 10 + d) a ds.reverse = a * 10 ^ ds.length + ofDecDigitsLE ds := by
  intro ds
  induction ds with
  | nil => intro a; simp [ofDecDigitsLE]
  | cons d ds ih =>
    intro a
    simp only [List.reverse_cons, List.foldl_append, List.foldl_cons, List.foldl_nil, ih,
      ofDecDigitsLE, List.length_cons]
    ring

theorem parseDecDigits_ne_nil (l : List Char) (h : l ≠ []) :
    parseDecDigits l = parseDigitsAcc 0 l := by
  cases l with
  | nil => exact absurd rfl h
  | cons c cs => rfl

theorem parseDecDigits_natDecChars (n : Nat) : parseDecDigits (natDecChars n) = some n := by
  by_cases hn : n = 0
  · subst hn; decide
  · have hne : decDigitsAux n n ≠ [] := decDigitsAux_ne_nil n hn
    have hlt : ∀ d ∈ (decDigitsAux n n).reverse, d < 10 := by
      intro d hd
      exact decDigitsAux_lt_ten n n d (List.mem_reverse.mp hd)
    have hacc := parseDigitsAcc_map_digitChar ((decDigitsAux n n).reverse) 0 hlt
    have hfold := foldl_reverse_ofDecDigitsLE (decDigitsAux n n) 0
    have hval := ofDecDigitsLE_decDigitsAux n n (Nat.le_refl n)
    have hne2 : ((decDigitsAux n n).reverse).map digitChar ≠ [] := by
      simp [hne]
    rw [natDecChars, if_neg hn, parseDecDigits_ne_nil _ hne2, hacc, hfold, hval]
    simp

theorem natDecChars_all_digits (n : Nat) :
    ∀ c ∈ natDecChars n, ∃ d, d < 10 ∧ c = digitChar d := by
  intro c hc
  by_cases hn : n = 0
  · subst hn
    simp [natDecChars] at hc
    exact ⟨0, by omega, by rw [hc]; rfl⟩
  · simp only [natDecChars, if_neg hn, List.mem_map, List.mem_reverse] at hc
    obtain ⟨d, hd, hcd⟩ := hc
    exact ⟨d, decDigitsAux_lt_ten n n d hd, hcd.symm⟩

theorem natDecChars_ne_nil (n : Nat) : natDecChars n ≠ [] := by
  by_cases h0 : n = 0
  · simp [natDecChars, h0]
  · simp [natDecChars, h0, decDigitsAux_ne_nil n h0]

theorem parseBigIntDec_bigIntToDecString (i : Int) :
    parseBigIntDec (bigIntToDecString i) = .ok i := by
  by_cases hi : i < 0
  · have hstep : parseBigIntDec (bigIntToDecString i) =
        parseBigIntChars ('-' :: natDecChars i.natAbs) := by
      rw [bigIntToDecString, if_pos hi]; rfl
    have hred : parseBigIntChars ('-' :: natDecChars i.natAbs) =
        match parseDecDigits (natDecChars i.natAbs) with
        | some n => Except.ok (-(n : Int))
        | none => Except.error DErr.badBigIntLiteral := rfl
    rw [hstep, hred, parseDecDigits_natDecChars]
    have habs : ((i.natAbs : Int)) = -i := by omega
    simp only [habs, neg_neg]
  · have hne := natDecChars_ne_nil i.natAbs
    match hmatch : natDecChars i.natAbs with
    | [] => exact absurd hmatch hne
    | c :: cs =>
      have hc : ∃ d, d < 10 ∧ c = digitChar d := by
        apply natDecChars_all_digits i.natAbs
        rw [hmatch]; exact List.mem_cons_self c cs
      obtain ⟨d, hd, hcd⟩ := hc
      obtain ⟨h1, h2⟩ := digitChar_ne_signs d hd
      have hstep : parseBigIntDec (bigIntToDecString i) =
          parseBigIntChars (c :: cs) := by
        rw [bigIntToDecString, if_neg hi, ← hmatch]; rfl
      rw [hstep]
      simp only [parseBigIntChars]
      rw [hcd, h1, h2]
      simp only [Bool.false_eq_true, if_false]
      rw [← hcd, ← hmatch, parseDecDigits_natDecChars]
      have habs : ((i.natAbs : Int)) = i := by omega
      simp only [habs]

/-- Calendar fields of a timestamp, the components the host
Date.prototype.toISOString renders.  A host Date value holding a valid
instant determines these fields uniquely, so the model takes them as
the canonical representation of the instant; the millisecond count
since the epoch and the calendar fields determine each other
bijectively inside the host. -/
structure DateFields where
  year : Nat
  month : Nat
  day : Nat
  hour : Nat
  minute : Nat
  second : Nat
  milli : Nat
deriving DecidableEq

/-- Gregorian leap-year rule. -/
def isLeapYear (y : Nat) : Bool :=
  (y % 4 == 0 && y % 100 != 0) || y % 400 == 0

/-- Number of days of a month (months counted from 1). -/
def daysInMonth (y m : Nat) : Nat :=
  match m with
  | 1 => 31
  | 2 => if isLeapYear y then 29 else 28
  | 3 => 31
  | 4 => 30
  | 5 => 31
  | 6 => 30
  | 7 => 31
  | 8 => 31
  | 9 => 30
  | 10 => 31
  | 11 => 30
  | 12 => 31
  | _ => 0

/-- Field ranges a host Date value can expose through toISOString in the
basic four-digit-year format: the extended six-digit-year forms of the
host are outside the model, and no claim exercises them. -/
def DateFields.validB (f : DateFields) : Bool :=
  decide (f.year ≤ 9999) && decide (1 ≤ f.month) && decide (f.month ≤ 12) &&
    decide (1 ≤ f.day) && decide (f.day ≤ daysInMonth f.year f.month) &&
    decide (f.hour ≤ 23) && decide (f.minute ≤ 59) && decide (f.second ≤ 59) &&
    decide (f.milli ≤ 999)

/-- Two-digit zero-padded decimal rendering. -/
def pad2L (n : Nat) : List Char := [digitChar (n / 10 % 10), digitChar (n % 10)]

/-- Three-digit zero-padded decimal rendering. -/
def pad3L (n : Nat) : List Char :=
  [digitChar (n / 100 % 10), digitChar (n / 10 % 10), digitChar (n % 10)]

/-- Four-digit zero-padded decimal rendering. -/
def pad4L (n : Nat) : List Char :=
  [digitChar (n / 1000 % 10), digitChar (n / 100 % 10), digitChar (n / 10 % 10),
    digitChar (n % 10)]

/-- Character list of the ISO-8601 rendering that
Date.prototype.toISOString produces: four-digit year, then month, day,
hour, minute, second and milliseconds, millisecond precision, UTC
suffix Z. -/
def isoChars (f : DateFields) : List Char :=
  pad4L f.year ++ '-' :: pad2L f.month ++ '-' :: pad2L f.day ++ 'T' :: pad2L f.hour ++
    ':' :: pad2L f.minute ++ ':' :: pad2L f.second ++ '.' :: pad3L f.milli ++ ['Z']

/-- Host primitive modelled: Date.prototype.toISOString on a valid
instant with a four-digit year. -/
def toISOString (f : DateFields) : String := String.mk (isoChars f)

/-- Value of two decimal digit characters. -/
def digit2 (a b : Char) : Option Nat :=
  match charDigit a, charDigit b with
  | some x, some y => some (x * 10 + y)
  | _, _ => none

/-- Value of three decimal digit characters. -/
def digit3 (a b c : Char) : Option Nat :=
  match charDigit a, charDigit b, charDigit c with
  | some x, some y, some z => some ((x * 10 + y) * 10 + z)
  | _, _, _ => none

/-- Value of four decimal digit characters. -/
def digit4 (a b c d : Char) : Option Nat :=
  match charDigit a, charDigit b, charDigit c, charDigit d with
  | some w, some x, some y, some z => some (((w * 10 + x) * 10 + y) * 10 + z)
  | _, _, _, _ => none

/-- Field extraction from the exact 24-character ISO form the
serializer emits.  Shorter date-time forms the host Date constructor
also accepts are outside the model, and no claim exercises them. -/
def parseISOChars (l : List Char) : Option DateFields :=
  match l with
  | [y1, y2, y3, y4, h1, m1, m2, h2, d1, d2, t1, hh1, hh2, c1, mi1, mi2, c2, s1, s2,
      p1, ms1, ms2, ms3, z1] =>
    if h1 == '-' && h2 == '-' && t1 == 'T' && c1 == ':' && c2 == ':' && p1 == '.' &&
        z1 == 'Z' then
      match digit4 y1 y2 y3 y4, digit2 m1 m2, digit2 d1 d2, digit2 hh1 hh2,
          digit2 mi1 mi2, digit2 s1 s2, digit3 ms1 ms2 ms3 with
      | some y, some mo, some d, some h, some mi, some s, some ms =>
        some ⟨y, mo, d, h, mi, s, ms⟩
      | _, _, _, _, _, _, _ => none
    else none
  | _ => none

/-- Host primitive modelled: the string path of the Date constructor,
restricted to the 24-character ISO form, with the range validation the
host date-time parse performs.  A string outside this form gives none,
standing for the invalid-Date outcome. -/
def parseISODate (s : String) : Option DateFields :=
  match parseISOChars s.data with
  | some f => if f.validB then some f else none
  | none => none

theorem digit2_pad2L (n : Nat) (h : n ≤ 99) :
    digit2 (digitChar (n / 10 % 10)) (digitChar (n % 10)) = some n := by
  simp only [digit2, charDigit_digitChar _ (show n / 10 % 10 < 10 by omega),
    charDigit_digitChar _ (show n % 10 < 10 by omega)]
  congr 1
  omega

theorem digit3_pad3L (n : Nat) (h : n ≤ 999) :
    digit3 (digitChar (n / 100 % 10)) (digitChar (n / 10 % 10)) (digitChar (n % 10)) =
      some n := by
  simp only [digit3, charDigit_digitChar _ (show n / 100 % 10 < 10 by omega),
    charDigit_digitChar _ (show n / 10 % 10 < 10 by omega),
    charDigit_digitChar _ (show n % 10 < 10 by omega)]
  congr 1
  omega

theorem digit4_pad4L (n : Nat) (h : n ≤ 9999) :
    digit4 (digitChar (n / 1000 % 10)) (digitChar (n / 100 % 10))
      (digitChar (n / 10 % 10)) (digitChar (n % 10)) = some n := by
  simp only [digit4, charDigit_digitChar _ (show n / 1000 % 10 < 10 by omega),
    charDigit_digitChar _ (show n / 100 % 10 < 10 by omega),
    charDigit_digitChar _ (show n / 10 % 10 < 10 by omega),
    charDigit_digitChar _ (show n % 10 < 10 by omega)]
  congr 1
  omega

theorem daysInMonth_le (y m : Nat) : daysInMonth y m ≤ 31 := by
  unfold daysInMonth
  split <;> first | omega | split <;> omega

theorem parseISODate_toISOString (f : DateFields) (h : f.validB = true) :
    parseISODate (toISOString f) = some f := by
  have hb := h
  simp only [DateFields.validB, Bool.and_eq_true, decide_eq_true_eq] at hb
  obtain ⟨⟨⟨⟨⟨⟨⟨⟨hy, hm1⟩, hm2⟩, hd1⟩, hd2⟩, hh⟩, hmi⟩, hs⟩, hms⟩ := hb
  have hd99 : f.day ≤ 99 := le_trans hd2 (le_trans (daysInMonth_le _ _) (by omega))
  have hstep : parseISODate (toISOString f) =
      match parseISOChars (isoChars f) with
      | some g => if g.validB then some g else none
      | none => none := rfl
  rw [hstep]
  have hchars : parseISOChars (isoChars f) = some f := by
    simp only [isoChars, pad4L, pad2L, pad3L, List.cons_append, List.nil_append]
    simp only [parseISOChars]
    rw [digit4_pad4L _ (by omega), digit2_pad2L _ (by omega), digit2_pad2L _ (by omega),
      digit2_pad2L _ (by omega), digit2_pad2L _ (by omega), digit2_pad2L _ (by omega),
      digit3_pad3L _ (by omega)]
    rfl
  rw [hchars]
  simp [h]

/-- Runtime values the serialization subsystem handles: the primitives
of the wire format, ordered sequences, string-keyed mappings, and the
two extended kinds, arbitrary-precision integers and timestamps.
Numeric values are modelled as integers; IEEE-754 specifics of the host
number type are outside the model, and no claim turns on them.  A
mapping is the insertion-ordered field list of a host object; host
objects never repeat a key, so lists with repeated keys lie outside the
image of the abstraction. -/
inductive JValue where
  | null : JValue
  | bool (b : Bool) : JValue
  | num (n : Int) : JValue
  | str (s : String) : JValue
  | arr (xs : List JValue) : JValue
  | obj (kvs : List (String × JValue)) : JValue
  | bigint (i : Int) : JValue
  | date (f : DateFields) : JValue

/-- Parsed form of the canonical wire text: the JSON data model.  A
byte sequence holding well-formed canonical text is represented by the
tree JSON.parse builds from it, since JSON.stringify and JSON.parse are
mutually inverse between trees and well-formed texts. -/
inductive PlainJson where
  | null : PlainJson
  | bool (b : Bool) : PlainJson
  | num (n : Int) : PlainJson
  | str (s : String) : PlainJson
  | arr (xs : List PlainJson) : PlainJson
  | obj (kvs : List (String × PlainJson)) : PlainJson

mutual

/-- Model of serialize from utils.ts: JSON.stringify with the replacer
that wraps a bigint member in an envelope holding its decimal string
under the key value and the tag bigint under the key typeInfo, and a
Date member in an envelope holding its toISOString form under the key
value and the tag date.  All other members pass through unchanged.
The result is the parsed tree of the emitted canonical text. -/
def serialize : JValue → PlainJson
  | .null => .null
  | .bool b => .bool b
  | .num n => .num n
  | .str s => .str s
  | .bigint i => .obj [("value", .str (bigIntToDecString i)), ("typeInfo", .str "bigint")]
  | .date f => .obj [("value", .str (toISOString f)), ("typeInfo", .str "date")]
  | .arr xs => .arr (serializeList xs)
  | .obj kvs => .obj (serializeKVs kvs)

/-- Elementwise serialization of a sequence. -/
def serializeList : List JValue → List PlainJson
  | [] => []
  | v :: vs => serialize v :: serializeList vs

/-- Fieldwise serialization of a mapping. -/
def serializeKVs : List (String × JValue) → List (String × PlainJson)
  | [] => []
  | (k, v) :: kvs => (k, serialize v) :: serializeKVs kvs

end

/-- Key-list test of the reviver in deserialize: exactly two keys and
every key name among value and typeInfo. -/
def envKeysOk (ks : List String) : Bool :=
  ks.length == 2 && ks.all fun k => k == "value" || k == "typeInfo"

/-- Model of the host BigInt conversion applied to the member under the
key value of a recognized envelope.  none models the undefined of a
missing property, which the host conversion rejects with a TypeError,
as it rejects null.  A string goes through the string-to-BigInt
conversion; a number, a bigint and a boolean convert directly.  The
ToPrimitive coercion the host applies to object operands is outside
the model, and no claim exercises it. -/
def jsBigIntOf : Option JValue → Except DErr JValue
  | some (.str s) =>
    match parseBigIntDec s with
    | .ok i => .ok (.bigint i)
    | .error e => .error e
  | some (.num n) => .ok (.bigint n)
  | some (.bigint i) => .ok (.bigint i)
  | some (.bool b) => .ok (.bigint (if b then 1 else 0))
  | _ => .error .typeError

/-- Model of the host Date constructor applied to the member under the
key value of a recognized envelope: the string path parses the ISO
form; every other operand kind of the host constructor is outside the
model, reported as the invalid-Date outcome, and no claim exercises
it. -/
def jsDateOf : Option JValue → Except DErr JValue
  | some (.str s) =>
    match parseISODate s with
    | some f => .ok (.date f)
    | none => .error .invalidDate
  | _ => .error .invalidDate

/-- One application of the reviver of deserialize to an already revived
node.  Only a non-null object enters the envelope test; on a sequence
the host key list holds the index strings, which never pass the key
test, so the sequence arm is the identity like every other non-object
arm.  When the key test passes, the switch on the member under typeInfo
recognizes the string tags bigint and date and otherwise falls through
to the unchanged node. -/
def reviverStep : JValue → Except DErr JValue
  | .obj kvs =>
    if envKeysOk (kvs.map Prod.fst) then
      match List.lookup "typeInfo" kvs with
      | some (.str t) =>
        if t == "bigint" then jsBigIntOf (List.lookup "value" kvs)
        else if t == "date" then jsDateOf (List.lookup "value" kvs)
        else .ok (.obj kvs)
      | _ => .ok (.obj kvs)
    else .ok (.obj kvs)
  | v => .ok v

mutual

/-- Model of deserialize from utils.ts: JSON.parse with the reviver,
applied to the parsed tree of the byte sequence.  JSON.parse revives
bottom-up, children before parents, in document order, so each node is
rebuilt from its revived children and then passed through the reviver;
the first failure propagates.  The parse failure on malformed text
sits below this abstraction, since a PlainJson tree is well-formed by
construction. -/
def deserialize : PlainJson → Except DErr JValue
  | .null => reviverStep .null
  | .bool b => reviverStep (.bool b)
  | .num n => reviverStep (.num n)
  | .str s => reviverStep (.str s)
  | .arr xs =>
    match deserializeList xs with
    | .ok ys => reviverStep (.arr ys)
    | .error e => .error e
  | .obj kvs =>
    match deserializeKVs kvs with
    | .ok kvs2 => reviverStep (.obj kvs2)
    | .error e => .error e

/-- Elementwise revival of a sequence. -/
def deserializeList : List PlainJson → Except DErr (List JValue)
  | [] => .ok []
  | x :: xs =>
    match deserialize x with
    | .ok v =>
      match deserializeList xs with
      | .ok vs => .ok (v :: vs)
      | .error e => .error e
    | .error e => .error e

/-- Fieldwise revival of a mapping. -/
def deserializeKVs : List (String × PlainJson) → Except DErr (List (String × JValue))
  | [] => .ok []
  | (k, x) :: kvs =>
    match deserialize x with
    | .ok v =>
      match deserializeKVs kvs with
      | .ok rest => .ok ((k, v) :: rest)
      | .error e => .error e
    | .error e => .error e

end

/-- Test of a mapping field list for the recognized envelope shape:
the two-key test passes and the member under typeInfo is the string
bigint or the string date.  A plain mapping of this shape is the one
the deserializer re-interprets. -/
def isRecognizedTagged (kvs : List (String × JValue)) : Bool :=
  envKeysOk (kvs.map Prod.fst) &&
    match List.lookup "typeInfo" kvs with
    | some (.str t) => t == "bigint" || t == "date"
    | _ => false

mutual

/-- Ambiguity-freedom: no mapping node of the value has the recognized
envelope shape.  Genuine bigint and date members are not mappings, so
they are never restricted by this test. -/
def taggedShapeFree : JValue → Bool
  | .arr xs => taggedShapeFreeList xs
  | .obj kvs => !isRecognizedTagged kvs && taggedShapeFreeKVs kvs
  | _ => true

/-- Elementwise ambiguity-freedom of a sequence. -/
def taggedShapeFreeList : List JValue → Bool
  | [] => true
  | v :: vs => taggedShapeFree v && taggedShapeFreeList vs

/-- Fieldwise ambiguity-freedom of a mapping. -/
def taggedShapeFreeKVs : List (String × JValue) → Bool
  | [] => true
  | (_, v) :: kvs => taggedShapeFree v && taggedShapeFreeKVs kvs

end

mutual

/-- Validity of every timestamp of the value: a host Date can only hold
a valid instant, so values with out-of-range fields lie outside the
image of the abstraction. -/
def datesValid : JValue → Bool
  | .date f => f.validB
  | .arr xs => datesValidList xs
  | .obj kvs => datesValidKVs kvs
  | _ => true

/-- Elementwise timestamp validity of a sequence. -/
def datesValidList : List JValue → Bool
  | [] => true
  | v :: vs => datesValid v && datesValidList vs

/-- Fieldwise timestamp validity of a mapping. -/
def datesValidKVs : List (String × JValue) → Bool
  | [] => true
  | (_, v) :: kvs => datesValid v && datesValidKVs kvs

end

/-- Structural induction over values, with membership hypotheses for
the members of sequences and mappings. -/
def JValue.inductionOn (motive : JValue → Prop)
    (hnull : motive .null)
    (hbool : ∀ b, motive (.bool b))
    (hnum : ∀ n, motive (.num n))
    (hstr : ∀ s, motive (.str s))
    (hbig : ∀ i, motive (.bigint i))
    (hdate : ∀ f, motive (.date f))
    (harr : ∀ xs, (∀ x ∈ xs, motive x) → motive (.arr xs))
    (hobj : ∀ kvs, (∀ p ∈ kvs, motive p.2) → motive (.obj kvs)) :
    ∀ v, motive v
  | .null => hnull
  | .bool b => hbool b
  | .num n => hnum n
  | .str s => hstr s
  | .bigint i => hbig i
  | .date f => hdate f
  | .arr xs =>
    harr xs fun x hx =>
      JValue.inductionOn motive hnull hbool hnum hstr hbig hdate harr hobj x
  | .obj kvs =>
    hobj kvs fun p hp =>
      JValue.inductionOn motive hnull hbool hnum hstr hbig hdate harr hobj p.2
termination_by v => sizeOf v
decreasing_by
  · have := List.sizeOf_lt_of_mem hx
    simp only [JValue.arr.sizeOf_spec]
    omega
  · have h1 := List.sizeOf_lt_of_mem hp
    obtain ⟨k, x⟩ := p
    simp only [JValue.obj.sizeOf_spec]
    simp only [Prod.mk.sizeOf_spec] at h1
    omega

theorem taggedShapeFreeList_mem {xs : List JValue} (h : taggedShapeFreeList xs = true) :
    ∀ x ∈ xs, taggedShapeFree x = true := by
  induction xs with
  | nil => intro x hx; cases hx
  | cons v vs ih =>
    simp only [taggedShapeFreeList, Bool.and_eq_true] at h
    intro x hx
    rcases List.mem_cons.mp hx with rfl | hx2
    · exact h.1
    · exact ih h.2 x hx2

theorem taggedShapeFreeKVs_mem {kvs : List (String × JValue)}
    (h : taggedShapeFreeKVs kvs = true) : ∀ p ∈ kvs, taggedShapeFree p.2 = true := by
  induction kvs with
  | nil => intro p hp; cases hp
  | cons q qs ih =>
    obtain ⟨k, v⟩ := q
    simp only [taggedShapeFreeKVs, Bool.and_eq_true] at h
    intro p hp
    rcases List.mem_cons.mp hp with rfl | hp2
    · exact h.1
    · exact ih h.2 p hp2

theorem datesValidList_mem {xs : List JValue} (h : datesValidList xs = true) :
    ∀ x ∈ xs, datesValid x = true := by
  induction xs with
  | nil => intro x hx; cases hx
  | cons v vs ih =>
    simp only [datesValidList, Bool.and_eq_true] at h
    intro x hx
    rcases List.mem_cons.mp hx with rfl | hx2
    · exact h.1
    · exact ih h.2 x hx2

theorem datesValidKVs_mem {kvs : List (String × JValue)}
    (h : datesValidKVs kvs = true) : ∀ p ∈ kvs, datesValid p.2 = true := by
  induction kvs with
  | nil => intro p hp; cases hp
  | cons q qs ih =>
    obtain ⟨k, v⟩ := q
    simp only [datesValidKVs, Bool.and_eq_true] at h
    intro p hp
    rcases List.mem_cons.mp hp with rfl | hp2
    · exact h.1
    · exact ih h.2 p hp2

theorem reviverStep_not_tagged (kvs : List (String × JValue))
    (h : isRecognizedTagged kvs = false) : reviverStep (.obj kvs) = .ok (.obj kvs) := by
  by_cases hk : envKeysOk (kvs.map Prod.fst) = true
  · simp only [isRecognizedTagged, hk, Bool.true_and] at h
    cases hl : List.lookup "typeInfo" kvs with
    | none => simp [reviverStep, hk, hl]
    | some v =>
      cases v with
      | str t =>
        rw [hl] at h
        have h1 : (t == "bigint") = false := by
          cases hb : t == "bigint" <;> simp [hb] at h ⊢
        have h2 : (t == "date") = false := by
          cases hb : t == "date" <;> simp [hb] at h ⊢
        simp [reviverStep, hk, hl, h1, h2]
      | null => simp [reviverStep, hk, hl]
      | bool b => simp [reviverStep, hk, hl]
      | num n => simp [reviverStep, hk, hl]
      | arr xs => simp [reviverStep, hk, hl]
      | obj kvs2 => simp [reviverStep, hk, hl]
      | bigint i => simp [reviverStep, hk, hl]
      | date f => simp [reviverStep, hk, hl]
  · simp [reviverStep, Bool.of_not_eq_true hk]

theorem deserializeList_serializeList (xs : List JValue)
    (h : ∀ x ∈ xs, deserialize (serialize x) = .ok x) :
    deserializeList (serializeList xs) = .ok xs := by
  induction xs with
  | nil => rfl
  | cons v vs ih =>
    simp only [serializeList, deserializeList, h v (List.mem_cons_self v vs),
      ih fun x hx => h x (List.mem_cons_of_mem v hx)]

theorem deserializeKVs_serializeKVs (kvs : List (String × JValue))
    (h : ∀ p ∈ kvs, deserialize (serialize p.2) = .ok p.2) :
    deserializeKVs (serializeKVs kvs) = .ok kvs := by
  induction kvs with
  | nil => rfl
  | cons q qs ih =>
    obtain ⟨k, v⟩ := q
    simp only [serializeKVs, deserializeKVs, h (k, v) (List.mem_cons_self (k, v) qs),
      ih fun p hp => h p (List.mem_cons_of_mem (k, v) hp)]

theorem deserialize_serialize (v : JValue) (h1 : taggedShapeFree v = true)
    (h2 : datesValid v = true) : deserialize (serialize v) = .ok v := by
  revert h1 h2
  induction v using JValue.inductionOn with
  | hnull => intro _ _; rfl
  | hbool b => intro _ _; rfl
  | hnum n => intro _ _; rfl
  | hstr s => intro _ _; rfl
  | hbig i =>
    intro _ _
    have hred : deserialize (serialize (.bigint i)) =
        match parseBigIntDec (bigIntToDecString i) with
        | .ok j => Except.ok (JValue.bigint j)
        | .error e => .error e := rfl
    rw [hred, parseBigIntDec_bigIntToDecString]
  | hdate f =>
    intro _ hd
    have hval : f.validB = true := by simpa [datesValid] using hd
    have hred : deserialize (serialize (.date f)) =
        match parseISODate (toISOString f) with
        | some g => Except.ok (JValue.date g)
        | none => .error .invalidDate := rfl
    rw [hred, parseISODate_toISOString f hval]
  | harr xs ih =>
    intro h1 h2
    have h1m := taggedShapeFreeList_mem (by simpa [taggedShapeFree] using h1)
    have h2m := datesValidList_mem (by simpa [datesValid] using h2)
    have hmap := deserializeList_serializeList xs fun x hx => ih x hx (h1m x hx) (h2m x hx)
    show deserialize (.arr (serializeList xs)) = .ok (.arr xs)
    simp only [deserialize, hmap]
    rfl
  | hobj kvs ih =>
    intro h1 h2
    simp only [taggedShapeFree, Bool.and_eq_true, Bool.not_eq_true'] at h1
    have h1m := taggedShapeFreeKVs_mem h1.2
    have h2m := datesValidKVs_mem (by simpa [datesValid] using h2)
    have hmap := deserializeKVs_serializeKVs kvs fun p hp => ih p hp (h1m p hp) (h2m p hp)
    show deserialize (.obj (serializeKVs kvs)) = .ok (.obj kvs)
    simp only [deserialize, hmap]
    exact reviverStep_not_tagged kvs h1.1

/-- Modelled from the spec: the GetOptions configuration record of
types/collections.ts, a file the repository snapshot does not carry.
Per the spec, every recognized field is optional: defaultValue is the
value substituted for absent or null data, reconstructor rebuilds a
richer application value from the decoded one, and deserializer is a
pluggable codec override.  none models an absent field. -/
structure GetOptionsM where
  defaultValue : Option JValue
  reconstructor : Option (JValue → JValue)
  deserializer : Option (PlainJson → Except DErr JValue)

/-- Model of getValueWithOptions from utils.ts.  The first argument is
the stored byte sequence, none for the absent case.  The body follows
the source line by line: on absent input it returns the defaultValue
member if present and otherwise null; otherwise it decodes the bytes
by calling the module-level deserialize (the source never reads the
deserializer member of the options); a null result again yields the
defaultValue member or null; a non-null result goes through the
reconstructor member when present and is returned unchanged otherwise.
The source checks the decoded value against undefined as well as null,
but the reviver never produces undefined, so null is the only caught
case.  An omitted options argument equals an options record with every
field absent, since the default options record of the source only sets
the never-read deserializer member. -/
def getValueWithOptions (value : Option PlainJson) (options : GetOptionsM) :
    Except DErr JValue :=
  match value with
  | none => .ok (options.defaultValue.getD .null)
  | some bytes =>
    match deserialize bytes with
    | .error e => .error e
    | .ok deserialized =>
      match deserialized with
      | .null => .ok (options.defaultValue.getD .null)
      | d =>
        match options.reconstructor with
        | some r => .ok (r d)
        | none => .ok d

/-- Failure of serializeValueWithOptions when the destructured
serializer member is undefined and gets called: the host raises a
TypeError. -/
inductive SerErr where
  | serializerUndefined : SerErr
deriving DecidableEq

/-- Modelled from the spec: the serializer slice of the GetOptions
record of types/collections.ts; the field is optional. -/
structure SerOptionsM where
  serializer : Option (JValue → PlainJson)

/-- Model of serializeValueWithOptions from utils.ts.  The options
parameter destructures its serializer member, and its default value,
an object carrying the module-level serialize, applies only when the
argument is absent (none here); when an options object is passed, the
member itself is called, and a missing member is the undefined of the
host, whose call raises a TypeError. -/
def serializeValueWithOptions (value : JValue) (options : Option SerOptionsM) :
    Except SerErr PlainJson :=
  match options with
  | none => .ok (serialize value)
  | some o =>
    match o.serializer with
    | some f => .ok (f value)
    | none => .error .serializerUndefined

/-- Model of assert from utils.ts: the truthiness of the checked
expression is a boolean, and a throw is the error arm of Except with
the thrown message. -/
def assert (expression : Bool) (message : String) : Except String Unit :=
  if !expression then .error ("assertion failed: " ++ message) else .ok ()

/-- Character class of the regex atom for lowercase letters and
digits. -/
def isLowerAlnum (c : Char) : Bool :=
  (('a' ≤ c) && (c ≤ 'z')) || (('0' ≤ c) && (c ≤ '9'))

/-- Character class of the regex atom for the label joiners hyphen and
underscore. -/
def isLabelSep (c : Char) : Bool := c == '-' || c == '_'

/-- Left-to-right scan implementing ACCOUNT_ID_REGEX after an
alphanumeric character has just been consumed: a further alphanumeric
continues, a joiner or a dot must be followed by an alphanumeric, the
end accepts, anything else rejects.  This is the deterministic
automaton of the anchored regex, whose language is exactly the strings
over the allowed characters that start and end alphanumeric with no
two adjacent non-alphanumeric characters. -/
def scanAfterAlnum : List Char → Bool
  | [] => true
  | c :: cs =>
    if isLowerAlnum c then scanAfterAlnum cs
    else if isLabelSep c || c == '.' then
      match cs with
      | [] => false
      | c2 :: cs2 => isLowerAlnum c2 && scanAfterAlnum cs2
    else false

/-- Entry state of the scan: the first character must be
alphanumeric. -/
def scanAccount (cs : List Char) : Bool :=
  match cs with
  | [] => false
  | c :: cs2 => isLowerAlnum c && scanAfterAlnum cs2

/-- Model of ACCOUNT_ID_REGEX.test from utils.ts. -/
def accountIdRegexTest (s : String) : Bool := scanAccount s.data

/-- Model of validateAccountId from utils.ts: length between 2 and 64
and the regex test.  String length is counted in characters; the
UTF-16 code-unit count of the host differs only outside the basic
plane, where the regex rejects anyway. -/
def validateAccountId (accountId : String) : Bool :=
  decide (2 ≤ accountId.length) && decide (accountId.length ≤ 64) &&
    accountIdRegexTest accountId

/-- Spec-side grammar of one label: one or more groups of lowercase
alphanumerics joined by single hyphens or underscores, so no leading,
trailing or doubled joiner and no empty group. -/
inductive LabelGram : List Char → Prop where
  | single : ∀ g : List Char, g ≠ [] → (∀ c ∈ g, isLowerAlnum c = true) → LabelGram g
  | more : ∀ (g : List Char) (s : Char) (rest : List Char), g ≠ [] →
      (∀ c ∈ g, isLowerAlnum c = true) → isLabelSep s = true → LabelGram rest →
      LabelGram (g ++ s :: rest)

/-- Spec-side grammar of an account identifier: one or more
dot-separated labels, no empty label. -/
inductive AccountIdGram : List Char → Prop where
  | single : ∀ l, LabelGram l → AccountIdGram l
  | more : ∀ l rest, LabelGram l → AccountIdGram rest → AccountIdGram (l ++ '.' :: rest)

theorem scanAfterAlnum_nil : scanAfterAlnum [] = true := by
  rw [scanAfterAlnum.eq_def]

theorem scan_cons_alnum {c : Char} (cs : List Char) (h : isLowerAlnum c = true) :
    scanAfterAlnum (c :: cs) = scanAfterAlnum cs := by
  rw [scanAfterAlnum.eq_def]
  simp [h]

theorem scan_cons_other_nil {c : Char} (h : isLowerAlnum c = false) :
    scanAfterAlnum [c] = false := by
  rw [scanAfterAlnum.eq_def]
  simp [h]

theorem scan_cons_other_cons {c : Char} (c2 : Char) (cs2 : List Char)
    (h : isLowerAlnum c = false) (h2 : (isLabelSep c || c == '.') = true) :
    scanAfterAlnum (c :: c2 :: cs2) = (isLowerAlnum c2 && scanAfterAlnum cs2) := by
  rw [scanAfterAlnum.eq_def]
  simp [h, h2]

theorem scan_cons_bad {c : Char} (cs : List Char) (h : isLowerAlnum c = false)
    (h2 : (isLabelSep c || c == '.') = false) : scanAfterAlnum (c :: cs) = false := by
  rw [scanAfterAlnum.eq_def]
  simp [h, h2]

theorem scanAccount_nil : scanAccount [] = false := rfl

theorem scanAccount_cons (c : Char) (cs : List Char) :
    scanAccount (c :: cs) = (isLowerAlnum c && scanAfterAlnum cs) := rfl

theorem isLabelSep_not_alnum (c : Char) (h : isLabelSep c = true) :
    isLowerAlnum c = false := by
  simp only [isLabelSep, Bool.or_eq_true, beq_iff_eq] at h
  rcases h with rfl | rfl <;> decide

theorem LabelGram_head {l : List Char} (h : LabelGram l) :
    ∃ a t, l = a :: t ∧ isLowerAlnum a = true := by
  induction h with
  | single g hne hall =>
    cases g with
    | nil => exact absurd rfl hne
    | cons a t => exact ⟨a, t, rfl, hall a (List.mem_cons_self a t)⟩
  | more g s rest hne hall hsep hrest ih =>
    cases g with
    | nil => exact absurd rfl hne
    | cons a t =>
      exact ⟨a, t ++ s :: rest, by simp, hall a (List.mem_cons_self a t)⟩

theorem AccountIdGram_head {cs : List Char} (h : AccountIdGram cs) :
    ∃ a t, cs = a :: t ∧ isLowerAlnum a = true := by
  induction h with
  | single l hl => exact LabelGram_head hl
  | more l rest hl hrest ih =>
    obtain ⟨a, t, rfl, ha⟩ := LabelGram_head hl
    exact ⟨a, t ++ '.' :: rest, by simp, ha⟩

theorem scanAfterAlnum_group (g : List Char) (hall : ∀ c ∈ g, isLowerAlnum c = true) :
    ∀ t, scanAfterAlnum (g ++ t) = scanAfterAlnum t := by
  induction g with
  | nil => intro t; rfl
  | cons c g2 ih =>
    intro t
    have hc : isLowerAlnum c = true := hall c (List.mem_cons_self c g2)
    rw [List.cons_append, scan_cons_alnum _ hc]
    exact ih (fun x hx => hall x (List.mem_cons_of_mem c hx)) t

theorem scanAccount_label {l : List Char} (h : LabelGram l) :
    ∀ t, scanAccount (l ++ t) = scanAfterAlnum t := by
  induction h with
  | single g hne hall =>
    intro t
    cases g with
    | nil => exact absurd rfl hne
    | cons a g2 =>
      have ha : isLowerAlnum a = true := hall a (List.mem_cons_self a g2)
      rw [List.cons_append, scanAccount_cons, ha, Bool.true_and]
      exact scanAfterAlnum_group g2 (fun x hx => hall x (List.mem_cons_of_mem a hx)) t
  | more g s rest hne hall hsep hrest ih =>
    intro t
    cases g with
    | nil => exact absurd rfl hne
    | cons a g2 =>
      have ha : isLowerAlnum a = true := hall a (List.mem_cons_self a g2)
      have hg2 : ∀ x ∈ g2, isLowerAlnum x = true :=
        fun x hx => hall x (List.mem_cons_of_mem a hx)
      obtain ⟨b, r2, hr, hb⟩ := LabelGram_head hrest
      have hshape : ((a :: g2) ++ s :: rest) ++ t = a :: (g2 ++ (s :: (rest ++ t))) := by
        simp
      rw [hshape, scanAccount_cons, ha, Bool.true_and, scanAfterAlnum_group g2 hg2]
      rw [hr]
      rw [show ((b :: r2) ++ t : List Char) = b :: (r2 ++ t) from rfl]
      rw [scan_cons_other_cons b (r2 ++ t) (isLabelSep_not_alnum s hsep)
        (by simp [hsep])]
      have hih := ih t
      rw [hr, show ((b :: r2) ++ t : List Char) = b :: (r2 ++ t) from rfl,
        scanAccount_cons] at hih
      exact hih

theorem scanAccount_sound {cs : List Char} (h : AccountIdGram cs) :
    scanAccount cs = true := by
  induction h with
  | single l hl =>
    have hlab := scanAccount_label hl []
    rw [List.append_nil] at hlab
    rw [hlab]
    exact scanAfterAlnum_nil
  | more l rest hl hrest ih =>
    rw [scanAccount_label hl ('.' :: rest)]
    obtain ⟨b, r2, hr, hb⟩ := AccountIdGram_head hrest
    subst hr
    rw [scan_cons_other_cons b r2 (by decide) (by decide)]
    rw [scanAccount_cons] at ih
    exact ih

theorem AccountIdGram_decomp {x : List Char} (h : AccountIdGram x) :
    LabelGram x ∨ ∃ l rest, x = l ++ '.' :: rest ∧ LabelGram l ∧ AccountIdGram rest := by
  cases h with
  | single l hl => exact .inl hl
  | more l rest hl hrest => exact .inr ⟨l, rest, rfl, hl, hrest⟩

theorem scanAfterAlnum_complete :
    ∀ cs, scanAfterAlnum cs = true →
      ∀ g, g ≠ [] → (∀ c ∈ g, isLowerAlnum c = true) → AccountIdGram (g ++ cs) := by
  intro cs
  induction cs using scanAfterAlnum.induct with
  | case1 =>
    intro _ g hne hall
    rw [List.append_nil]
    exact .single g (.single g hne hall)
  | case2 c cs2 hc ih =>
    intro h g hne hall
    rw [scan_cons_alnum cs2 hc] at h
    have hout := ih h (g ++ [c]) (by simp)
      (by
        intro x hx
        rcases List.mem_append.mp hx with hx2 | hx2
        · exact hall x hx2
        · rw [List.mem_singleton.mp hx2]; exact hc)
    rw [List.append_assoc] at hout
    simpa using hout
  | case3 c hc1 hc2 =>
    intro h
    have h1f : isLowerAlnum c = false := by
      cases hb : isLowerAlnum c with
      | false => rfl
      | true => exact absurd hb hc1
    rw [scan_cons_other_nil h1f] at h
    cases h
  | case4 c hc1 hc2 c2 cs2 ih =>
    intro h g hne hall
    have h1f : isLowerAlnum c = false := by
      cases hb : isLowerAlnum c with
      | false => rfl
      | true => exact absurd hb hc1
    rw [scan_cons_other_cons c2 cs2 h1f hc2] at h
    simp only [Bool.and_eq_true] at h
    have hD : AccountIdGram (c2 :: cs2) := by
      have hout := ih h.2 [c2] (by simp)
        (by intro x hx; rw [List.mem_singleton.mp hx]; exact h.1)
      simpa using hout
    have hc2b := hc2
    simp only [Bool.or_eq_true] at hc2b
    rcases hc2b with hsep | hdot
    · rcases AccountIdGram_decomp hD with hl | ⟨l, rest, heq, hl, hrest⟩
      · exact .single _ (.more g c (c2 :: cs2) hne hall hsep hl)
      · rw [heq, show g ++ c :: (l ++ '.' :: rest) = (g ++ c :: l) ++ '.' :: rest by simp]
        exact .more _ _ (.more g c l hne hall hsep hl) hrest
    · have hcdot : c = '.' := by simpa [beq_iff_eq] using hdot
      subst hcdot
      exact .more g (c2 :: cs2) (.single g hne hall) hD
  | case5 c cs2 hc1 hc2 =>
    intro h
    have h1f : isLowerAlnum c = false := by
      cases hb : isLowerAlnum c with
      | false => rfl
      | true => exact absurd hb hc1
    have h2f : (isLabelSep c || c == '.') = false := by
      cases hb : isLabelSep c || c == '.' with
      | false => rfl
      | true => exact absurd hb hc2
    rw [scan_cons_bad cs2 h1f h2f] at h
    cases h

theorem accountIdRegexTest_iff_gram (s : String) :
    accountIdRegexTest s = true ↔ AccountIdGram s.data := by
  constructor
  · intro h
    rw [accountIdRegexTest] at h
    cases hm : s.data with
    | nil =>
      rw [hm, scanAccount_nil] at h
      cases h
    | cons c cs =>
      rw [hm, scanAccount_cons] at h
      simp only [Bool.and_eq_true] at h
      have hout := scanAfterAlnum_complete cs h.2 [c] (by simp)
        (by intro x hx; rw [List.mem_singleton.mp hx]; exact h.1)
      simpa using hout
  · intro h
    exact scanAccount_sound h

theorem getValueWithOptions_some (b : PlainJson) (o : GetOptionsM) :
    getValueWithOptions (some b) o =
      match deserialize b with
      | .error e => .error e
      | .ok deserialized =>
        match deserialized with
        | .null => .ok (o.defaultValue.getD .null)
        | d =>
          match o.reconstructor with
          | some r => .ok (r d)
          | none => .ok d := rfl

theorem deserialize_obj (kvs : List (String × PlainJson)) :
    deserialize (.obj kvs) =
      match deserializeKVs kvs with
      | .ok z => reviverStep (.obj z)
      | .error e => .error e := rfl

/-- C1 (amended): getValueWithOptions never consults the deserializer
member of its options and always decodes through the module-level
deserialize, so the decoded value it returns is the one the default
Deserializer produces, whatever deserializer the options supply: the
result is invariant under any change of the deserializer member, and
with no default and no reconstructor the result on present bytes is
exactly deserialize applied to them. -/
theorem c1_deserializer_ignored :
    (∀ (value : Option PlainJson) (o : GetOptionsM)
        (d : Option (PlainJson → Except DErr JValue)),
        getValueWithOptions value ⟨o.defaultValue, o.reconstructor, d⟩ =
          getValueWithOptions value o) ∧
    (∀ (b : PlainJson) (v : JValue) (d : Option (PlainJson → Except DErr JValue)),
        deserialize b = .ok v → v ≠ .null →
        getValueWithOptions (some b) ⟨none, none, d⟩ = .ok v) := by
  constructor
  · intro value o d
    cases value <;> rfl
  · intro b v d hdes hnn
    rw [getValueWithOptions_some, hdes]
    cases v with
    | null => exact absurd rfl hnn
    | bool b2 => rfl
    | num n => rfl
    | str s => rfl
    | arr xs => rfl
    | obj kvs => rfl
    | bigint i => rfl
    | date f => rfl

/-- Witness for C1: a custom deserializer returning 42 is supplied and
ignored; the result is the value the default deserialize yields. -/
theorem c1_deserializer_ignored_witness :
    getValueWithOptions (some (PlainJson.num 7)) ⟨none, none,
        some fun _ => Except.ok (JValue.num 42)⟩ = .ok (JValue.num 7) :=
  c1_deserializer_ignored.2 (PlainJson.num 7) (JValue.num 7)
    (some fun _ => Except.ok (JValue.num 42)) rfl (fun h => JValue.noConfusion h)

/-- Refutation of C1 as stated: with a deserializer option whose value
on every input is 42, getValueWithOptions on the bytes of 1 returns 1,
the output of the default deserialize, not the 42 the supplied
deserializer produces. -/
theorem c1_counterexample :
    getValueWithOptions (some (PlainJson.num 1)) ⟨none, none,
        some fun _ => Except.ok (JValue.num 42)⟩ = .ok (JValue.num 1) ∧
    (fun _ : PlainJson => Except.ok (JValue.num 42) : PlainJson → Except DErr JValue)
        (PlainJson.num 1) = .ok (JValue.num 42) ∧
    (Except.ok (JValue.num 1) : Except DErr JValue) ≠ .ok (JValue.num 42) := by
  refine ⟨rfl, rfl, fun h => ?_⟩
  simp only [Except.ok.injEq, JValue.num.injEq] at h
  exact absurd h (by decide)

/-- C2 (amended): deserialize inverts serialize on every value none of
whose mapping nodes has the recognized envelope shape, exactly two
keys named value and typeInfo with the typeInfo member equal to the
string bigint or date, and all of whose timestamps are valid instants;
arbitrary-precision integers of any magnitude and timestamps at
millisecond precision come back identical. -/
theorem c2_roundtrip (v : JValue) (h1 : taggedShapeFree v = true)
    (h2 : datesValid v = true) : deserialize (serialize v) = .ok v :=
  deserialize_serialize v h1 h2

/-- Nested concrete value for the C2 witness: a mapping holding a
sequence with a null, a boolean, a negative number, an integer far
beyond double precision and a timestamp, beside a string field. -/
def wC2 : JValue :=
  .obj [("a", .arr [.null, .bool true, .num (-3),
    .bigint 123456789012345678901234567890,
    .date ⟨2021, 2, 3, 4, 5, 6, 7⟩]), ("b", .str "x")]

/-- Witness for C2 at a nested concrete value. -/
theorem c2_roundtrip_witness :
    taggedShapeFree wC2 = true ∧ datesValid wC2 = true ∧
      deserialize (serialize wC2) = .ok wC2 :=
  ⟨rfl, rfl, c2_roundtrip wC2 rfl rfl⟩

/-- Refutation of C2 as stated: the plain string-valued mapping with
the keys value and typeInfo and tag bigint is a supported value, yet
its round trip yields the big integer 5, not the mapping. -/
theorem c2_counterexample :
    deserialize (serialize (JValue.obj
        [("value", .str "5"), ("typeInfo", .str "bigint")])) = .ok (.bigint 5) ∧
    JValue.bigint 5 ≠
      JValue.obj [("value", .str "5"), ("typeInfo", .str "bigint")] :=
  ⟨rfl, fun h => JValue.noConfusion h⟩

/-- C3 (amended): a decoded mapping node is treated as a Tagged
Envelope exactly when it has two keys both named value or typeInfo:
when the key test fails the node decodes as the plain mapping of its
revived fields, and when it passes with the tag bigint the node is
handed to the BigInt conversion of its value member; consequently the
user-authored plain mapping with value 5 and typeInfo bigint decodes
to the integer 5, while with the non-numeric literal x the attempted
integer conversion raises, consistent with C10, instead of yielding
an integer. -/
theorem c3_envelope_shape :
    (∀ (kvs : List (String × PlainJson)) (kvs2 : List (String × JValue)),
        deserializeKVs kvs = .ok kvs2 → envKeysOk (kvs2.map Prod.fst) = false →
        deserialize (.obj kvs) = .ok (.obj kvs2)) ∧
    (∀ (kvs : List (String × PlainJson)) (kvs2 : List (String × JValue)),
        deserializeKVs kvs = .ok kvs2 → envKeysOk (kvs2.map Prod.fst) = true →
        List.lookup "typeInfo" kvs2 = some (.str "bigint") →
        deserialize (.obj kvs) = jsBigIntOf (List.lookup "value" kvs2)) ∧
    deserialize (serialize (JValue.obj
        [("value", .str "5"), ("typeInfo", .str "bigint")])) = .ok (.bigint 5) := by
  refine ⟨?_, ?_, rfl⟩
  · intro kvs kvs2 hdes hkeys
    rw [deserialize_obj, hdes]
    show reviverStep (.obj kvs2) = .ok (.obj kvs2)
    apply reviverStep_not_tagged
    simp [isRecognizedTagged, hkeys]
  · intro kvs kvs2 hdes hkeys hlook
    rw [deserialize_obj, hdes]
    show reviverStep (.obj kvs2) = jsBigIntOf (List.lookup "value" kvs2)
    have hred : reviverStep (.obj kvs2) =
        if envKeysOk (kvs2.map Prod.fst) then
          match List.lookup "typeInfo" kvs2 with
          | some (.str t) =>
            if t == "bigint" then jsBigIntOf (List.lookup "value" kvs2)
            else if t == "date" then jsDateOf (List.lookup "value" kvs2)
            else .ok (.obj kvs2)
          | _ => .ok (.obj kvs2)
        else .ok (.obj kvs2) := rfl
    rw [hred, hkeys, hlook]
    rfl

/-- Witness for C3: a two-element mapping failing the key test decodes
as a plain mapping. -/
theorem c3_envelope_shape_witness :
    deserialize (.obj [("value", PlainJson.str "x"), ("other", PlainJson.str "bigint")]) =
      .ok (.obj [("value", JValue.str "x"), ("other", JValue.str "bigint")]) :=
  c3_envelope_shape.1 _ _ rfl rfl

/-- Refutation of the final clause of C3 as stated: decoding the
user-authored plain mapping with value x and typeInfo bigint raises
the BigInt conversion failure rather than producing a tagged
integer. -/
theorem c3_counterexample :
    deserialize (serialize (JValue.obj
        [("value", .str "x"), ("typeInfo", .str "bigint")])) =
      .error .badBigIntLiteral := rfl

/-- C4: absent input with a default returns the default; bytes of null
with a default return the default; bytes of null with empty options
return null. -/
theorem c4_defaulting (D : JValue) :
    getValueWithOptions none ⟨some D, none, none⟩ = .ok D ∧
    getValueWithOptions (some (serialize .null)) ⟨some D, none, none⟩ = .ok D ∧
    getValueWithOptions (some (serialize .null)) ⟨none, none, none⟩ = .ok .null :=
  ⟨rfl, rfl, rfl⟩

/-- C5: on absent input the result is the default (or null) whatever
the reconstructor, on bytes decoding to null likewise, so the
reconstructor never sees a null input; and on bytes decoding to a
non-null value with a reconstructor present the result is exactly the
reconstructor applied to the decoded value. -/
theorem c5_default_precedence :
    (∀ o : GetOptionsM, getValueWithOptions none o = .ok (o.defaultValue.getD .null)) ∧
    (∀ (b : PlainJson) (o : GetOptionsM), deserialize b = .ok .null →
      getValueWithOptions (some b) o = .ok (o.defaultValue.getD .null)) ∧
    (∀ (b : PlainJson) (o : GetOptionsM) (d : JValue) (r : JValue → JValue),
      deserialize b = .ok d → d ≠ .null → o.reconstructor = some r →
      getValueWithOptions (some b) o = .ok (r d)) := by
  refine ⟨fun o => rfl, ?_, ?_⟩
  · intro b o h
    rw [getValueWithOptions_some, h]
  · intro b o d r hdes hnn hrec
    rw [getValueWithOptions_some, hdes]
    cases d with
    | null => exact absurd rfl hnn
    | bool b2 => rw [hrec]
    | num n => rw [hrec]
    | str s => rw [hrec]
    | arr xs => rw [hrec]
    | obj kvs => rw [hrec]
    | bigint i => rw [hrec]
    | date f => rw [hrec]

/-- Witness for C5: a reconstructor mapping everything to 2 is applied
to the non-null decoded value. -/
theorem c5_default_precedence_witness :
    getValueWithOptions (some (PlainJson.num 1)) ⟨none, some fun _ => JValue.num 2,
        none⟩ = .ok (JValue.num 2) :=
  c5_default_precedence.2.2 (PlainJson.num 1)
    ⟨none, some fun _ => JValue.num 2, none⟩ (JValue.num 1) (fun _ => JValue.num 2)
    rfl (fun h => JValue.noConfusion h) rfl

/-- C6 (amended): serializeValueWithOptions returns the supplied
serializer applied to the value when the options carry one, and the
default Serializer applied to the value when the options argument is
absent; but when an options object is present without a serializer
member, the destructured member is undefined and the call raises a
TypeError instead of falling back to the default. -/
theorem c6_serializer_dispatch :
    (∀ v, serializeValueWithOptions v none = .ok (serialize v)) ∧
    (∀ (v : JValue) (f : JValue → PlainJson),
      serializeValueWithOptions v (some ⟨some f⟩) = .ok (f v)) ∧
    (∀ v, serializeValueWithOptions v (some ⟨none⟩) = .error .serializerUndefined) :=
  ⟨fun v => rfl, fun v f => rfl, fun v => rfl⟩

/-- Refutation of C6 as stated: with present options lacking a
serializer member the call fails instead of using the default
Serializer. -/
theorem c6_counterexample :
    serializeValueWithOptions (JValue.num 1) (some ⟨none⟩) =
        .error .serializerUndefined ∧
    (Except.error SerErr.serializerUndefined : Except SerErr PlainJson) ≠
      .ok (serialize (JValue.num 1)) :=
  ⟨rfl, fun h => Except.noConfusion h⟩

/-- C7: a two-key mapping passing the envelope key test whose typeInfo
member is a string other than bigint and date is left as an ordinary
mapping in the result, an explicit fallthrough rather than an
error. -/
theorem c7_unrecognized_tag (kvs : List (String × PlainJson))
    (kvs2 : List (String × JValue)) (t : String)
    (hdes : deserializeKVs kvs = .ok kvs2)
    (hkeys : envKeysOk (kvs2.map Prod.fst) = true)
    (hlook : List.lookup "typeInfo" kvs2 = some (.str t))
    (hb : t ≠ "bigint") (hd : t ≠ "date") :
    deserialize (.obj kvs) = .ok (.obj kvs2) := by
  rw [deserialize_obj, hdes]
  show reviverStep (.obj kvs2) = .ok (.obj kvs2)
  apply reviverStep_not_tagged
  have h1 : (t == "bigint") = false := beq_eq_false_iff_ne.mpr hb
  have h2 : (t == "date") = false := beq_eq_false_iff_ne.mpr hd
  simp [isRecognizedTagged, hkeys, hlook, h1, h2]

/-- Witness for C7: the tag other falls through and the mapping
survives decoding unchanged. -/
theorem c7_unrecognized_tag_witness :
    deserialize (.obj [("value", PlainJson.str "x"), ("typeInfo", PlainJson.str "other")]) =
      .ok (.obj [("value", JValue.str "x"), ("typeInfo", JValue.str "other")]) :=
  c7_unrecognized_tag _ _ "other" rfl rfl rfl (by decide) (by decide)

/-- C8: validateAccountId accepts exactly the strings of length 2 to
64 matching the grammar of dot-separated labels of alphanumeric groups
joined by single hyphens or underscores; and the five sample inputs
behave as the spec lists. -/
theorem c8_account_id_grammar :
    (∀ s : String, validateAccountId s = true ↔
      2 ≤ s.length ∧ s.length ≤ 64 ∧ AccountIdGram s.data) ∧
    validateAccountId "alice.near" = true ∧
    validateAccountId "Alice.near" = false ∧
    validateAccountId "a" = false ∧
    validateAccountId "a..b" = false ∧
    validateAccountId (String.mk (List.replicate 65 'a')) = false := by
  refine ⟨?_, by decide, by decide, by decide, by decide, by decide⟩
  intro s
  rw [validateAccountId]
  simp only [Bool.and_eq_true, decide_eq_true_eq, accountIdRegexTest_iff_gram]
  tauto

/-- Witness for C8: the accepted identifier alice.near is in the
grammar with admissible length. -/
theorem c8_account_id_grammar_witness :
    2 ≤ ("alice.near" : String).length ∧ ("alice.near" : String).length ≤ 64 ∧
      AccountIdGram ("alice.near" : String).data :=
  (c8_account_id_grammar.1 "alice.near").mp (by decide)

/-- C9: assert fails with exactly the message assertion failed
followed by the given text precisely when the expression is falsy, and
is a no-op returning unit when it is truthy. -/
theorem c9_assert (e : Bool) (m : String) :
    (assert e m = .error ("assertion failed: " ++ m) ↔ e = false) ∧
    (e = true → assert e m = .ok ()) := by
  cases e with
  | false => exact ⟨⟨fun _ => rfl, fun _ => rfl⟩, fun h => Bool.noConfusion h⟩
  | true => exact ⟨⟨fun h => Except.noConfusion h, fun h => Bool.noConfusion h⟩, fun _ => rfl⟩

/-- Witness for C9 at the sample message. -/
theorem c9_assert_witness :
    assert false "m" = .error ("assertion failed: " ++ "m") ∧ assert true "m" = .ok () :=
  ⟨(c9_assert false "m").1.mpr rfl, (c9_assert true "m").2 rfl⟩

/-- C10: a well-formed envelope whose value member is not an integer
literal makes the BigInt conversion raise, so deserialize can fail on
a byte sequence that is syntactically valid canonical text; this
failure is the conversion error, a kind the parse error of malformed
text does not cover. -/
theorem c10_bigint_decode_failure :
    deserialize (.obj [("value", PlainJson.str "12a"),
        ("typeInfo", PlainJson.str "bigint")]) = .error .badBigIntLiteral := rfl
